import Mathlib

/-!
Verification of the WAF log analysis pipeline (`aws-infrastructure/tools/waf-analyzer.py`).

The pipeline is embedded shallowly:
* a parsed JSON log record becomes `LogRecord` (absent JSON fields are `Option.none`);
* `WAFAnalyzer.get_log_files` becomes `getLogFiles`, with each day's S3 listing
  modelled as an `Option (List String)` (`none` = listing failure for that day);
* `WAFAnalyzer.download_and_parse_logs` becomes `downloadAndParseLogs`, with each
  file modelled as `Option (List (Option LogRecord))` (`none` = fetch/decompress
  failure; each line is the result of attempting `json.loads`, `none` for a
  malformed or empty line);
* `WAFAnalyzer.analyze_threat_patterns` becomes `analyzeThreatPatterns`;
* the block-rate portion of `WAFAnalyzer.generate_report` becomes `blockRateLine`.

Python string primitives used by the source (`str.lower`, substring `in`,
`sorted`, lexicographic `<=` on strings) are re-implemented over `List Char`
so that everything reduces in the kernel.  `datetime.fromtimestamp(ms/1000).hour`
is modelled as the UTC hour of the epoch-millisecond timestamp; the fixed local
offset does not affect any property proved here (only totality and the 0-23
range of the hour are used).
-/

namespace WafAnalyzer

/-- Modelled Python `str.lower()` restricted to ASCII, as a map over the
character list (rule identifiers in the source data are ASCII). -/
def strLower (s : String) : String := ⟨s.data.map Char.toLower⟩

/-- Whether `pat` occurs at the start of `s` (character lists). -/
def startsWithChars : List Char → List Char → Bool
  | [], _ => true
  | _ :: _, [] => false
  | a :: as, b :: bs => a == b && startsWithChars as bs

/-- Whether `pat` occurs as a contiguous substring of `s` (character lists);
models Python `pat in s`. -/
def containsChars (pat : List Char) : List Char → Bool
  | [] => pat.isEmpty
  | c :: rest => startsWithChars pat (c :: rest) || containsChars pat rest

/-- Models Python `pat in s` on strings. -/
def strContains (s pat : String) : Bool := containsChars pat.data s.data

/-- Models Python `s.endswith(suffix)` on strings. -/
def strEndsWith (s suffix : String) : Bool :=
  startsWithChars suffix.data.reverse s.data.reverse

/-- Lexicographic `<=` on character lists, by code point; models the order
Python `sorted` uses on strings. -/
def leChars : List Char → List Char → Bool
  | [], _ => true
  | _ :: _, [] => false
  | a :: as, b :: bs => if a = b then leChars as bs else decide (a < b)

/-- Lexicographic `<=` on strings. -/
def leStr (a b : String) : Bool := leChars a.data b.data

/-- Insert into a `leStr`-sorted list, keeping it sorted (stable). -/
def insertSorted (x : String) : List String → List String
  | [] => [x]
  | y :: ys => if leStr x y then x :: y :: ys else y :: insertSorted x ys

/-- Models Python `sorted` on a list of strings (a stable sort by `leStr`). -/
def pySorted : List String → List String
  | [] => []
  | x :: xs => insertSorted x (pySorted xs)

/-- One `name`/`value` entry of the `headers` array of a WAF log record. -/
structure WafHeader where
  name : Option String
  value : Option String
deriving DecidableEq

/-- The nested `httpRequest` object of a WAF log record; every field may be
absent in the JSON. -/
structure HttpRequest where
  country : Option String
  clientIP : Option String
  uri : Option String
  httpMethod : Option String
  headers : Option (List WafHeader)
deriving DecidableEq

/-- One parsed WAF log record (one line of JSON); every field may be absent. -/
structure LogRecord where
  action : Option String
  timestamp : Option Nat
  terminatingRuleId : Option String
  httpRequest : Option HttpRequest
deriving DecidableEq

/-- `log.get('httpRequest', {}).get(field, 'Unknown')`: read a field of the
nested `httpRequest` object, defaulting to `"Unknown"` when the object or the
field is absent. -/
def reqField (r : LogRecord) (f : HttpRequest → Option String) : String :=
  match r.httpRequest with
  | none => "Unknown"
  | some h => (f h).getD "Unknown"

/-- Hour of day of an epoch-millisecond timestamp:
`datetime.fromtimestamp(ms/1000).hour`, modelled in UTC. -/
def hourOf (ms : Nat) : Nat := ms / 1000 % 86400 / 3600

/-- Hour bucket of a record: the timestamp defaults to epoch 0 when absent
(`log.get('timestamp', 0)`). -/
def hourOfRecord (r : LogRecord) : Nat := hourOf (r.timestamp.getD 0)

/-- `log.get('action', '')`. -/
def actionOf (r : LogRecord) : String := r.action.getD ""

/-- `log.get('terminatingRuleId', 'Unknown')`. -/
def ruleIdOf (r : LogRecord) : String := r.terminatingRuleId.getD "Unknown"

/-- The attack-classification chain of `analyze_threat_patterns`: ordered
case-insensitive substring tests on the rule id, first match wins. -/
def classifyAttack (ruleId : String) : String :=
  if strContains (strLower ruleId) "sql" || strContains (strLower ruleId) "sqli" then
    "SQL Injection"
  else if strContains (strLower ruleId) "xss" then
    "Cross-Site Scripting"
  else if strContains (strLower ruleId) "ratelimit" then
    "Rate Limiting"
  else if strContains (strLower ruleId) "geo" then
    "Geographic Block"
  else
    "Other"

/-- Fixed ordered keyword table of the specification: keyword alternatives
paired with the category they select, first match wins. -/
def attackKeywordTable : List (List String × String) :=
  [(["sql", "sqli"], "SQL Injection"),
   (["xss"], "Cross-Site Scripting"),
   (["ratelimit"], "Rate Limiting"),
   (["geo"], "Geographic Block")]

/-- Attack classification as the specification words it: first entry of the
ordered keyword table one of whose keywords is a case-insensitive substring of
the rule id, `"Other"` when none matches.  This definition follows the spec
text and is compared with `classifyAttack`, which follows the source. -/
def classifyAttackSpec (ruleId : String) : String :=
  match attackKeywordTable.find?
      (fun e => e.1.any (fun kw => strContains (strLower ruleId) kw)) with
  | some e => e.2
  | none => "Other"

/-- The scan of the `headers` list for the first case-insensitive
`user-agent` name match (extracted but unused by the source; kept for
fidelity). -/
def userAgentOf (r : LogRecord) : String :=
  let headers := (r.httpRequest.map (fun h => h.headers.getD [])).getD []
  match headers.find? (fun h => strLower (h.name.getD "") = "user-agent") with
  | some h => h.value.getD ""
  | none => ""

/-- The aggregate produced by `analyze_threat_patterns`.  The Python
`defaultdict(int)` tables are modelled as total count functions (every key
absent from the table has count 0). -/
structure AnalysisResult where
  total_requests : Nat
  blocked_requests : Nat
  allowed_requests : Nat
  blocked_by_rule : String → Nat
  blocked_by_country : String → Nat
  blocked_by_ip : String → Nat
  top_blocked_uris : String → Nat
  attack_methods : String → Nat
  hourly_distribution : Nat → Nat

/-- Increment a string-keyed counter at `k` (a `defaultdict(int)` update). -/
def bump (f : String → Nat) (k : String) : String → Nat :=
  fun x => if x = k then f x + 1 else f x

/-- Increment a `Nat`-keyed counter at `k`. -/
def bumpNat (f : Nat → Nat) (k : Nat) : Nat → Nat :=
  fun x => if x = k then f x + 1 else f x

/-- The initial analysis dictionary: `total_requests` is `len(logs)` and every
other counter starts at zero. -/
def initAnalysis (logs : List LogRecord) : AnalysisResult :=
  { total_requests := logs.length
    blocked_requests := 0
    allowed_requests := 0
    blocked_by_rule := fun _ => 0
    blocked_by_country := fun _ => 0
    blocked_by_ip := fun _ => 0
    top_blocked_uris := fun _ => 0
    attack_methods := fun _ => 0
    hourly_distribution := fun _ => 0 }

/-- The body of the `for log in logs` loop of `analyze_threat_patterns`:
BLOCK records update the blocked counters and the attack category, ALLOW
records update `allowed_requests`, and every record updates the hourly
distribution. -/
def stepRecord (a : AnalysisResult) (r : LogRecord) : AnalysisResult :=
  let a' :=
    if actionOf r = "BLOCK" then
      { a with
        blocked_requests := a.blocked_requests + 1
        blocked_by_rule := bump a.blocked_by_rule (ruleIdOf r)
        blocked_by_country := bump a.blocked_by_country (reqField r (fun h => h.country))
        blocked_by_ip := bump a.blocked_by_ip (reqField r (fun h => h.clientIP))
        top_blocked_uris := bump a.top_blocked_uris (reqField r (fun h => h.uri))
        attack_methods := bump a.attack_methods (classifyAttack (ruleIdOf r)) }
    else if actionOf r = "ALLOW" then
      { a with allowed_requests := a.allowed_requests + 1 }
    else
      a
  { a' with hourly_distribution := bumpNat a'.hourly_distribution (hourOfRecord r) }

/-- `WAFAnalyzer.analyze_threat_patterns`: one pass over the record list. -/
def analyzeThreatPatterns (logs : List LogRecord) : AnalysisResult :=
  logs.foldl stepRecord (initAnalysis logs)

/-- The block-rate portion of `WAFAnalyzer.generate_report`: the percentage on
the `Block Rate` line when `total_requests > 0`, and `none` when the guard
`if analysis['total_requests'] > 0` skips the line. -/
def blockRateLine (a : AnalysisResult) : Option Rat :=
  if a.total_requests > 0 then
    some ((a.blocked_requests : Rat) / (a.total_requests : Rat) * 100)
  else
    none

/-- `WAFAnalyzer.get_log_files`: each day contributes the keys of its listing
that end in `.gz` (nothing on a listing failure), and the collected list is
returned through `sorted`. -/
def getLogFiles (listings : List (Option (List String))) : List String :=
  pySorted
    ((listings.map (fun day => (day.getD []).filter (fun k => strEndsWith k ".gz"))).flatten)

/-- The `if max_files and processed_files >= max_files: break` guard: Python
truthiness makes a cap of `0` (like `None`) never trigger the break. -/
def capReached (maxFiles : Option Nat) (processed : Nat) : Bool :=
  match maxFiles with
  | none => false
  | some m => !(m == 0) && decide (processed ≥ m)

/-- The per-line parse loop of `download_and_parse_logs`: valid lines are
appended to the accumulator, malformed or empty lines (`none`) are skipped. -/
def parseContentLoop (acc : List LogRecord) : List (Option LogRecord) → List LogRecord
  | [] => acc
  | some r :: rest => parseContentLoop (acc ++ [r]) rest
  | none :: rest => parseContentLoop acc rest

/-- The `for log_file in log_files` loop of `download_and_parse_logs`,
carrying the `processed_files` counter.  A `none` file is a fetch/decompress
failure: it is skipped and does not increment the counter.  Returns the parsed
records together with the final `processed_files` count. -/
def downloadLoop (maxFiles : Option Nat) :
    List (Option (List (Option LogRecord))) → Nat → List LogRecord × Nat
  | [], processed => ([], processed)
  | f :: fs, processed =>
    if capReached maxFiles processed then
      ([], processed)
    else
      match f with
      | none => downloadLoop maxFiles fs processed
      | some content =>
        let recs := parseContentLoop [] content
        let rest := downloadLoop maxFiles fs (processed + 1)
        (recs ++ rest.1, rest.2)

/-- `WAFAnalyzer.download_and_parse_logs`. -/
def downloadAndParseLogs (files : List (Option (List (Option LogRecord))))
    (maxFiles : Option Nat) : List LogRecord × Nat :=
  downloadLoop maxFiles files 0

/-! Predicates characterising which records feed each counter. -/

/-- Records taking the `action == 'BLOCK'` branch. -/
def isBlockRec (r : LogRecord) : Bool := actionOf r == "BLOCK"

/-- Records taking the `action == 'ALLOW'` branch. -/
def isAllowRec (r : LogRecord) : Bool := actionOf r == "ALLOW"

/-- Blocked records whose rule id is `k`. -/
def blockRulePred (k : String) (r : LogRecord) : Bool :=
  isBlockRec r && (ruleIdOf r == k)

/-- Blocked records whose country (defaulted) is `k`. -/
def blockCountryPred (k : String) (r : LogRecord) : Bool :=
  isBlockRec r && (reqField r (fun h => h.country) == k)

/-- Blocked records whose client IP (defaulted) is `k`. -/
def blockIpPred (k : String) (r : LogRecord) : Bool :=
  isBlockRec r && (reqField r (fun h => h.clientIP) == k)

/-- Blocked records whose URI (defaulted) is `k`. -/
def blockUriPred (k : String) (r : LogRecord) : Bool :=
  isBlockRec r && (reqField r (fun h => h.uri) == k)

/-- Blocked records classified into attack category `k`. -/
def attackPred (k : String) (r : LogRecord) : Bool :=
  isBlockRec r && (classifyAttack (ruleIdOf r) == k)

/-- Records whose hour bucket is `h`. -/
def hourPred (h : Nat) (r : LogRecord) : Bool := hourOfRecord r == h

theorem stepRecord_total (a : AnalysisResult) (r : LogRecord) :
    (stepRecord a r).total_requests = a.total_requests := by
  unfold stepRecord
  by_cases hb : actionOf r = "BLOCK"
  · simp [hb]
  · by_cases ha : actionOf r = "ALLOW" <;> simp [hb, ha]

theorem stepRecord_blocked (a : AnalysisResult) (r : LogRecord) :
    (stepRecord a r).blocked_requests
      = a.blocked_requests + (if isBlockRec r then 1 else 0) := by
  unfold stepRecord isBlockRec
  by_cases hb : actionOf r = "BLOCK"
  · simp [hb]
  · by_cases ha : actionOf r = "ALLOW" <;> simp [hb, ha]

theorem stepRecord_allowed (a : AnalysisResult) (r : LogRecord) :
    (stepRecord a r).allowed_requests
      = a.allowed_requests + (if isAllowRec r then 1 else 0) := by
  unfold stepRecord isAllowRec
  by_cases hb : actionOf r = "BLOCK"
  · have : actionOf r ≠ "ALLOW" := by simp [hb]
    simp [hb, this]
  · by_cases ha : actionOf r = "ALLOW" <;> simp [hb, ha]

theorem bump_apply (f : String → Nat) (key k : String) :
    bump f key k = f k + (if key == k then 1 else 0) := by
  unfold bump
  by_cases h : k = key
  · simp [h]
  · simp [h, Ne.symm h]

theorem bumpNat_apply (f : Nat → Nat) (key k : Nat) :
    bumpNat f key k = f k + (if key == k then 1 else 0) := by
  unfold bumpNat
  by_cases h : k = key
  · simp [h]
  · simp [h, Ne.symm h]

theorem stepRecord_rule (a : AnalysisResult) (r : LogRecord) (k : String) :
    (stepRecord a r).blocked_by_rule k
      = a.blocked_by_rule k + (if blockRulePred k r then 1 else 0) := by
  unfold stepRecord blockRulePred isBlockRec
  by_cases hb : actionOf r = "BLOCK"
  · simp [hb, bump_apply]
  · by_cases ha : actionOf r = "ALLOW" <;> simp [hb, ha]

theorem stepRecord_country (a : AnalysisResult) (r : LogRecord) (k : String) :
    (stepRecord a r).blocked_by_country k
      = a.blocked_by_country k + (if blockCountryPred k r then 1 else 0) := by
  unfold stepRecord blockCountryPred isBlockRec
  by_cases hb : actionOf r = "BLOCK"
  · simp [hb, bump_apply]
  · by_cases ha : actionOf r = "ALLOW" <;> simp [hb, ha]

theorem stepRecord_ip (a : AnalysisResult) (r : LogRecord) (k : String) :
    (stepRecord a r).blocked_by_ip k
      = a.blocked_by_ip k + (if blockIpPred k r then 1 else 0) := by
  unfold stepRecord blockIpPred isBlockRec
  by_cases hb : actionOf r = "BLOCK"
  · simp [hb, bump_apply]
  · by_cases ha : actionOf r = "ALLOW" <;> simp [hb, ha]

theorem stepRecord_uri (a : AnalysisResult) (r : LogRecord) (k : String) :
    (stepRecord a r).top_blocked_uris k
      = a.top_blocked_uris k + (if blockUriPred k r then 1 else 0) := by
  unfold stepRecord blockUriPred isBlockRec
  by_cases hb : actionOf r = "BLOCK"
  · simp [hb, bump_apply]
  · by_cases ha : actionOf r = "ALLOW" <;> simp [hb, ha]

theorem stepRecord_attack (a : AnalysisResult) (r : LogRecord) (k : String) :
    (stepRecord a r).attack_methods k
      = a.attack_methods k + (if attackPred k r then 1 else 0) := by
  unfold stepRecord attackPred isBlockRec
  by_cases hb : actionOf r = "BLOCK"
  · simp [hb, bump_apply]
  · by_cases ha : actionOf r = "ALLOW" <;> simp [hb, ha]

theorem stepRecord_hourly (a : AnalysisResult) (r : LogRecord) (h : Nat) :
    (stepRecord a r).hourly_distribution h
      = a.hourly_distribution h + (if hourPred h r then 1 else 0) := by
  unfold stepRecord hourPred
  by_cases hb : actionOf r = "BLOCK"
  · simp [hb, bumpNat_apply]
  · by_cases ha : actionOf r = "ALLOW" <;> simp [hb, ha, bumpNat_apply]

theorem foldl_total : ∀ (l : List LogRecord) (a : AnalysisResult),
    (l.foldl stepRecord a).total_requests = a.total_requests
  | [], _ => rfl
  | r :: l, a => by
    rw [List.foldl_cons, foldl_total l, stepRecord_total]

theorem foldl_blocked : ∀ (l : List LogRecord) (a : AnalysisResult),
    (l.foldl stepRecord a).blocked_requests
      = a.blocked_requests + l.countP isBlockRec
  | [], _ => by simp
  | r :: l, a => by
    rw [List.foldl_cons, foldl_blocked l, stepRecord_blocked, List.countP_cons]
    omega

theorem foldl_allowed : ∀ (l : List LogRecord) (a : AnalysisResult),
    (l.foldl stepRecord a).allowed_requests
      = a.allowed_requests + l.countP isAllowRec
  | [], _ => by simp
  | r :: l, a => by
    rw [List.foldl_cons, foldl_allowed l, stepRecord_allowed, List.countP_cons]
    omega

theorem foldl_rule (k : String) : ∀ (l : List LogRecord) (a : AnalysisResult),
    (l.foldl stepRecord a).blocked_by_rule k
      = a.blocked_by_rule k + l.countP (blockRulePred k)
  | [], _ => by simp
  | r :: l, a => by
    rw [List.foldl_cons, foldl_rule k l, stepRecord_rule, List.countP_cons]
    omega

theorem foldl_country (k : String) : ∀ (l : List LogRecord) (a : AnalysisResult),
    (l.foldl stepRecord a).blocked_by_country k
      = a.blocked_by_country k + l.countP (blockCountryPred k)
  | [], _ => by simp
  | r :: l, a => by
    rw [List.foldl_cons, foldl_country k l, stepRecord_country, List.countP_cons]
    omega

theorem foldl_ip (k : String) : ∀ (l : List LogRecord) (a : AnalysisResult),
    (l.foldl stepRecord a).blocked_by_ip k
      = a.blocked_by_ip k + l.countP (blockIpPred k)
  | [], _ => by simp
  | r :: l, a => by
    rw [List.foldl_cons, foldl_ip k l, stepRecord_ip, List.countP_cons]
    omega

theorem foldl_uri (k : String) : ∀ (l : List LogRecord) (a : AnalysisResult),
    (l.foldl stepRecord a).top_blocked_uris k
      = a.top_blocked_uris k + l.countP (blockUriPred k)
  | [], _ => by simp
  | r :: l, a => by
    rw [List.foldl_cons, foldl_uri k l, stepRecord_uri, List.countP_cons]
    omega

theorem foldl_attack (k : String) : ∀ (l : List LogRecord) (a : AnalysisResult),
    (l.foldl stepRecord a).attack_methods k
      = a.attack_methods k + l.countP (attackPred k)
  | [], _ => by simp
  | r :: l, a => by
    rw [List.foldl_cons, foldl_attack k l, stepRecord_attack, List.countP_cons]
    omega

theorem foldl_hourly (h : Nat) : ∀ (l : List LogRecord) (a : AnalysisResult),
    (l.foldl stepRecord a).hourly_distribution h
      = a.hourly_distribution h + l.countP (hourPred h)
  | [], _ => by simp
  | r :: l, a => by
    rw [List.foldl_cons, foldl_hourly h l, stepRecord_hourly, List.countP_cons]
    omega

/-! Concrete records used by the worked examples and witnesses. -/

/-- A BLOCK record terminated by the managed SQLi rule set (no `httpRequest`). -/
def rSqli : LogRecord :=
  { action := some "BLOCK", timestamp := none,
    terminatingRuleId := some "AWSManagedRulesSQLiRuleSet", httpRequest := none }

/-- A BLOCK record terminated by the rate-limit rule. -/
def rRate : LogRecord :=
  { action := some "BLOCK", timestamp := none,
    terminatingRuleId := some "RateLimitRule", httpRequest := none }

/-- An ALLOW record. -/
def rAllow : LogRecord :=
  { action := some "ALLOW", timestamp := none,
    terminatingRuleId := none, httpRequest := none }

/-- A record whose action is neither BLOCK nor ALLOW. -/
def rOther : LogRecord :=
  { action := some "COUNT", timestamp := none,
    terminatingRuleId := none, httpRequest := none }

/-- The record sequence of the spec's worked example: three BLOCK records with
rule ids SQLi, SQLi, RateLimit, plus two ALLOW records. -/
def exampleLogs : List LogRecord := [rSqli, rSqli, rRate, rAllow, rAllow]

/-- Claim C1: on the worked example (three BLOCK records with rule ids
`AWSManagedRulesSQLiRuleSet`, `AWSManagedRulesSQLiRuleSet`, `RateLimitRule`,
plus two ALLOW records) the aggregator returns `blocked_requests = 3`,
`allowed_requests = 2`, `total_requests = 5`, attack methods
`SQL Injection = 2` and `Rate Limiting = 1`, and the computed block rate is
60.00%. -/
theorem C1_example_aggregation :
    (analyzeThreatPatterns exampleLogs).blocked_requests = 3 ∧
    (analyzeThreatPatterns exampleLogs).allowed_requests = 2 ∧
    (analyzeThreatPatterns exampleLogs).total_requests = 5 ∧
    (analyzeThreatPatterns exampleLogs).attack_methods "SQL Injection" = 2 ∧
    (analyzeThreatPatterns exampleLogs).attack_methods "Rate Limiting" = 1 ∧
    blockRateLine (analyzeThreatPatterns exampleLogs) = some 60 := by
  refine ⟨by decide, by decide, by decide, by decide, by decide, ?_⟩
  have h1 : (analyzeThreatPatterns exampleLogs).blocked_requests = 3 := by decide
  have h2 : (analyzeThreatPatterns exampleLogs).total_requests = 5 := by decide
  rw [blockRateLine, h1, h2]
  norm_num

theorem countP_block_allow_le : ∀ l : List LogRecord,
    l.countP isBlockRec + l.countP isAllowRec ≤ l.length
  | [] => by simp
  | r :: l => by
    have ih := countP_block_allow_le l
    by_cases hb : isBlockRec r = true
    · have ha : isAllowRec r = false := by
        simp only [isBlockRec, beq_iff_eq] at hb
        simp [isAllowRec, hb]
      simp [List.countP_cons, hb, ha]
      omega
    · by_cases ha : isAllowRec r = true <;>
        simp [List.countP_cons, hb, ha] <;> omega

/-- Claim C2: for every record sequence,
`blocked_requests + allowed_requests <= total_requests`; a record whose action
is neither BLOCK nor ALLOW changes only the hourly distribution in the loop
body (it still counts toward `total_requests`, which is the input length). -/
theorem C2_action_partition :
    (∀ logs : List LogRecord,
      (analyzeThreatPatterns logs).blocked_requests +
          (analyzeThreatPatterns logs).allowed_requests ≤
        (analyzeThreatPatterns logs).total_requests) ∧
    (∀ (a : AnalysisResult) (r : LogRecord),
      actionOf r ≠ "BLOCK" → actionOf r ≠ "ALLOW" →
      stepRecord a r =
        { a with
          hourly_distribution := bumpNat a.hourly_distribution (hourOfRecord r) }) := by
  constructor
  · intro logs
    unfold analyzeThreatPatterns
    rw [foldl_blocked, foldl_allowed, foldl_total]
    simp only [initAnalysis, Nat.zero_add]
    exact countP_block_allow_le logs
  · intro a r hb ha
    unfold stepRecord
    simp [hb, ha]

/-- Witness for C2 at a concrete non-BLOCK, non-ALLOW record. -/
theorem C2_action_partition_witness :
    stepRecord (initAnalysis []) rOther =
      { initAnalysis [] with
        hourly_distribution :=
          bumpNat (initAnalysis []).hourly_distribution (hourOfRecord rOther) } :=
  C2_action_partition.2 (initAnalysis []) rOther (by decide) (by decide)

/-- Counterexample to claim C3 as stated: on the empty input the report
contains no block-rate value at all (the `if total_requests > 0` guard skips
the line), rather than reporting the percentage 0. -/
theorem C3_counterexample :
    blockRateLine (analyzeThreatPatterns []) = none ∧
    blockRateLine (analyzeThreatPatterns []) ≠ some 0 := by
  have h : blockRateLine (analyzeThreatPatterns []) = none := by
    simp [blockRateLine, analyzeThreatPatterns, initAnalysis]
  exact ⟨h, by simp [h]⟩

/-- Claim C3 (amended): when `total_requests = 0` the renderer omits the
block-rate line entirely (so no division by zero occurs); when
`total_requests > 0` it reports `blocked_requests / total_requests * 100`. -/
theorem C3_block_rate (a : AnalysisResult) :
    (a.total_requests = 0 → blockRateLine a = none) ∧
    (0 < a.total_requests →
      blockRateLine a =
        some ((a.blocked_requests : Rat) / (a.total_requests : Rat) * 100)) := by
  constructor
  · intro h
    simp [blockRateLine, h]
  · intro h
    simp [blockRateLine, h]

/-- Witness for C3 on the worked example, which has `total_requests = 5`. -/
theorem C3_block_rate_witness :
    0 < (analyzeThreatPatterns exampleLogs).total_requests ∧
    blockRateLine (analyzeThreatPatterns exampleLogs) =
      some (((analyzeThreatPatterns exampleLogs).blocked_requests : Rat) /
        ((analyzeThreatPatterns exampleLogs).total_requests : Rat) * 100) :=
  ⟨by decide, (C3_block_rate (analyzeThreatPatterns exampleLogs)).2 (by decide)⟩

theorem parseContentLoop_eq : ∀ (lines : List (Option LogRecord)) (acc : List LogRecord),
    parseContentLoop acc lines = acc ++ lines.filterMap id
  | [], acc => by simp [parseContentLoop]
  | some r :: rest, acc => by
    simp only [parseContentLoop, List.filterMap_cons]
    rw [parseContentLoop_eq rest]
    simp
  | none :: rest, acc => by
    simp only [parseContentLoop, List.filterMap_cons]
    rw [parseContentLoop_eq rest]
    rfl

/-- Claim C9: parsing one decompressed file whose lines interleave valid
records (`some r`) and malformed or empty lines (`none`) yields exactly the
valid records, in order, with the bad lines silently discarded; the embedding
is a total function, so no exception is raised. -/
theorem C9_malformed_lines (lines : List (Option LogRecord)) :
    (downloadAndParseLogs [some lines] none).1 = lines.filterMap id := by
  simp [downloadAndParseLogs, downloadLoop, capReached, parseContentLoop_eq]

/-- Claim C6: for a BLOCK record the country, client-IP, and URI counters are
incremented under the key "Unknown" when `httpRequest` is absent entirely, and
likewise when the individual field is absent inside a present `httpRequest`. -/
theorem C6_missing_fields_unknown (a : AnalysisResult) (r : LogRecord)
    (hb : actionOf r = "BLOCK") :
    (r.httpRequest = none →
      (stepRecord a r).blocked_by_country "Unknown" =
          a.blocked_by_country "Unknown" + 1 ∧
      (stepRecord a r).blocked_by_ip "Unknown" = a.blocked_by_ip "Unknown" + 1 ∧
      (stepRecord a r).top_blocked_uris "Unknown" =
          a.top_blocked_uris "Unknown" + 1) ∧
    (∀ h : HttpRequest, r.httpRequest = some h →
      (h.country = none →
        (stepRecord a r).blocked_by_country "Unknown" =
          a.blocked_by_country "Unknown" + 1) ∧
      (h.clientIP = none →
        (stepRecord a r).blocked_by_ip "Unknown" = a.blocked_by_ip "Unknown" + 1) ∧
      (h.uri = none →
        (stepRecord a r).top_blocked_uris "Unknown" =
          a.top_blocked_uris "Unknown" + 1)) := by
  constructor
  · intro hn
    refine ⟨?_, ?_, ?_⟩
    · rw [stepRecord_country]
      simp [blockCountryPred, isBlockRec, hb, reqField, hn]
    · rw [stepRecord_ip]
      simp [blockIpPred, isBlockRec, hb, reqField, hn]
    · rw [stepRecord_uri]
      simp [blockUriPred, isBlockRec, hb, reqField, hn]
  · intro h hs
    refine ⟨fun hcn => ?_, fun hin => ?_, fun hun => ?_⟩
    · rw [stepRecord_country]
      simp [blockCountryPred, isBlockRec, hb, reqField, hs, hcn]
    · rw [stepRecord_ip]
      simp [blockIpPred, isBlockRec, hb, reqField, hs, hin]
    · rw [stepRecord_uri]
      simp [blockUriPred, isBlockRec, hb, reqField, hs, hun]

/-- Witness for C6: a concrete BLOCK record with no `httpRequest` bumps the
country counter at "Unknown". -/
theorem C6_missing_fields_unknown_witness :
    (stepRecord (initAnalysis []) rSqli).blocked_by_country "Unknown" =
      (initAnalysis []).blocked_by_country "Unknown" + 1 :=
  ((C6_missing_fields_unknown (initAnalysis []) rSqli (by decide)).1 rfl).1

/-- Claim C7: aggregation is order independent: permuted record sequences give
the same totals and the same value at every key of every frequency table. -/
theorem C7_order_independence (l l' : List LogRecord) (hp : l.Perm l') :
    (analyzeThreatPatterns l).total_requests =
        (analyzeThreatPatterns l').total_requests ∧
    (analyzeThreatPatterns l).blocked_requests =
        (analyzeThreatPatterns l').blocked_requests ∧
    (analyzeThreatPatterns l).allowed_requests =
        (analyzeThreatPatterns l').allowed_requests ∧
    (∀ k, (analyzeThreatPatterns l).blocked_by_rule k =
        (analyzeThreatPatterns l').blocked_by_rule k) ∧
    (∀ k, (analyzeThreatPatterns l).blocked_by_country k =
        (analyzeThreatPatterns l').blocked_by_country k) ∧
    (∀ k, (analyzeThreatPatterns l).blocked_by_ip k =
        (analyzeThreatPatterns l').blocked_by_ip k) ∧
    (∀ k, (analyzeThreatPatterns l).top_blocked_uris k =
        (analyzeThreatPatterns l').top_blocked_uris k) ∧
    (∀ k, (analyzeThreatPatterns l).attack_methods k =
        (analyzeThreatPatterns l').attack_methods k) ∧
    (∀ h, (analyzeThreatPatterns l).hourly_distribution h =
        (analyzeThreatPatterns l').hourly_distribution h) := by
  unfold analyzeThreatPatterns
  refine ⟨?_, ?_, ?_, fun k => ?_, fun k => ?_, fun k => ?_, fun k => ?_,
    fun k => ?_, fun h => ?_⟩
  · rw [foldl_total, foldl_total]
    simp [initAnalysis, hp.length_eq]
  · rw [foldl_blocked, foldl_blocked]
    simp [initAnalysis, hp.countP_eq]
  · rw [foldl_allowed, foldl_allowed]
    simp [initAnalysis, hp.countP_eq]
  · rw [foldl_rule, foldl_rule]
    simp [initAnalysis, hp.countP_eq]
  · rw [foldl_country, foldl_country]
    simp [initAnalysis, hp.countP_eq]
  · rw [foldl_ip, foldl_ip]
    simp [initAnalysis, hp.countP_eq]
  · rw [foldl_uri, foldl_uri]
    simp [initAnalysis, hp.countP_eq]
  · rw [foldl_attack, foldl_attack]
    simp [initAnalysis, hp.countP_eq]
  · rw [foldl_hourly, foldl_hourly]
    simp [initAnalysis, hp.countP_eq]

/-- Witness for C7 at a concrete transposition of a two-record sequence. -/
theorem C7_order_independence_witness :
    (analyzeThreatPatterns [rSqli, rAllow]).blocked_requests =
      (analyzeThreatPatterns [rAllow, rSqli]).blocked_requests :=
  (C7_order_independence [rSqli, rAllow] [rAllow, rSqli]
    (List.Perm.swap rAllow rSqli [])).2.1

/-- Claim C8: the source's classification chain agrees everywhere with the
spec's ordered keyword table (first match wins, case-insensitive substring),
and a rule id containing both "sql" and "xss" is classified as SQL Injection. -/
theorem C8_attack_classification :
    (∀ ruleId : String, classifyAttack ruleId = classifyAttackSpec ruleId) ∧
    classifyAttack "SqlXssRule" = "SQL Injection" := by
  refine ⟨fun ruleId => ?_, by decide⟩
  unfold classifyAttack classifyAttackSpec attackKeywordTable
  cases h1 : strContains (strLower ruleId) "sql" <;>
  cases h2 : strContains (strLower ruleId) "sqli" <;>
  cases h3 : strContains (strLower ruleId) "xss" <;>
  cases h4 : strContains (strLower ruleId) "ratelimit" <;>
  cases h5 : strContains (strLower ruleId) "geo" <;>
  simp [List.find?, h1, h2, h3, h4, h5]

theorem hourOf_lt (ms : Nat) : hourOf ms < 24 := by
  unfold hourOf
  omega

theorem sum_ite_hour (r : LogRecord) :
    (∑ h ∈ Finset.range 24, (if hourPred h r then 1 else 0 : Nat)) = 1 := by
  have hlt : hourOfRecord r < 24 := hourOf_lt (r.timestamp.getD 0)
  simp only [hourPred, beq_iff_eq]
  rw [Finset.sum_ite_eq]
  simp [hlt]

theorem sum_hourly_countP : ∀ l : List LogRecord,
    (∑ h ∈ Finset.range 24, l.countP (hourPred h)) = l.length
  | [] => by simp
  | r :: l => by
    have ih := sum_hourly_countP l
    have hsum := sum_ite_hour r
    simp only [List.countP_cons, List.length_cons]
    rw [Finset.sum_add_distrib, ih, hsum]

/-- Claim C10: every record lands in exactly one hour bucket (a record with no
timestamp defaults to epoch 0, hence bucket 0), so the hourly distribution
sums to `total_requests`. -/
theorem C10_hourly_sum :
    (∀ logs : List LogRecord,
      (∑ h ∈ Finset.range 24,
          (analyzeThreatPatterns logs).hourly_distribution h) =
        (analyzeThreatPatterns logs).total_requests) ∧
    (∀ (a : AnalysisResult) (r : LogRecord), r.timestamp = none →
      (stepRecord a r).hourly_distribution 0 = a.hourly_distribution 0 + 1) := by
  constructor
  · intro logs
    unfold analyzeThreatPatterns
    rw [foldl_total]
    have hch : ∀ h, (logs.foldl stepRecord (initAnalysis logs)).hourly_distribution h
        = logs.countP (hourPred h) := by
      intro h
      rw [foldl_hourly]
      simp [initAnalysis]
    rw [Finset.sum_congr rfl (fun h _ => hch h), sum_hourly_countP]
    simp [initAnalysis]
  · intro a r ht
    rw [stepRecord_hourly]
    have hp0 : hourPred 0 r = true := by
      simp [hourPred, hourOfRecord, ht, hourOf]
    simp [hp0]

/-- Witness for C10 at a concrete record with no timestamp. -/
theorem C10_hourly_sum_witness :
    (stepRecord (initAnalysis []) rAllow).hourly_distribution 0 =
      (initAnalysis []).hourly_distribution 0 + 1 :=
  C10_hourly_sum.2 (initAnalysis []) rAllow rfl


theorem leChars_trans : ∀ a b c : List Char,
    leChars a b = true → leChars b c = true → leChars a c = true
  | [], _, _, _, _ => rfl
  | _ :: _, [], _, h, _ => by simp [leChars] at h
  | _ :: _, _ :: _, [], _, h => by simp [leChars] at h
  | x :: xs, y :: ys, z :: zs, h1, h2 => by
    simp only [leChars] at h1 h2 ⊢
    by_cases hxy : x = y
    · subst hxy
      by_cases hxz : x = z
      · subst hxz
        simp only [if_pos rfl] at h1 h2 ⊢
        exact leChars_trans xs ys zs h1 h2
      · simp only [if_pos rfl] at h1
        simp only [if_neg hxz] at h2 ⊢
        exact h2
    · by_cases hyz : y = z
      · subst hyz
        simp only [if_neg hxy] at h1 ⊢
        exact h1
      · simp only [if_neg hxy] at h1
        simp only [if_neg hyz] at h2
        have hlt : x < z := lt_trans (of_decide_eq_true h1) (of_decide_eq_true h2)
        simp only [if_neg (ne_of_lt hlt)]
        exact decide_eq_true hlt

theorem leChars_total : ∀ a b : List Char, leChars a b = true ∨ leChars b a = true
  | [], _ => Or.inl rfl
  | _ :: _, [] => Or.inr rfl
  | x :: xs, y :: ys => by
    simp only [leChars]
    by_cases hxy : x = y
    · subst hxy
      simp only [if_pos rfl]
      exact leChars_total xs ys
    · rcases lt_or_gt_of_ne hxy with h | h
      · left
        simp only [if_neg hxy]
        exact decide_eq_true h
      · right
        simp only [if_neg (Ne.symm hxy)]
        exact decide_eq_true h

theorem mem_insertSorted : ∀ (l : List String) (a x : String),
    a ∈ insertSorted x l → a = x ∨ a ∈ l
  | [], a, x, h => by
    simpa [insertSorted] using h
  | y :: ys, a, x, h => by
    simp only [insertSorted] at h
    split at h
    · simp only [List.mem_cons] at h ⊢
      tauto
    · simp only [List.mem_cons] at h ⊢
      rcases h with h | h
      · tauto
      · rcases mem_insertSorted ys a x h with h' | h' <;> tauto

theorem pairwise_insertSorted (x : String) : ∀ l : List String,
    l.Pairwise (fun a b => leStr a b = true) →
    (insertSorted x l).Pairwise (fun a b => leStr a b = true)
  | [], _ => by simp [insertSorted]
  | y :: ys, hp => by
    rcases List.pairwise_cons.mp hp with ⟨hy, hys⟩
    simp only [insertSorted]
    split
    · rename_i hle
      refine List.pairwise_cons.mpr ⟨?_, hp⟩
      intro b hb
      rcases List.mem_cons.mp hb with rfl | hb
      · exact hle
      · exact leChars_trans _ _ _ hle (hy b hb)
    · rename_i hle
      have hyx : leStr y x = true := by
        rcases leChars_total x.data y.data with h | h
        · exact absurd h hle
        · exact h
      refine List.pairwise_cons.mpr ⟨?_, pairwise_insertSorted x ys hys⟩
      intro b hb
      rcases mem_insertSorted ys b x hb with rfl | hb
      · exact hyx
      · exact hy b hb

theorem pairwise_pySorted : ∀ l : List String,
    (pySorted l).Pairwise (fun a b => leStr a b = true)
  | [] => List.Pairwise.nil
  | x :: xs => pairwise_insertSorted x (pySorted xs) (pairwise_pySorted xs)

/-- Counterexample to claim C5 as stated: a day listing containing the same
`.gz` key twice survives to the output twice, so the result is not
deduplicated (`sorted` in the source does not remove duplicates). -/
theorem C5_counterexample :
    ¬ (getLogFiles [some ["a.gz", "a.gz"]]).Nodup := by decide

/-- Claim C5 (amended): for every per-day listing result, the key sequence
returned by the locator is sorted in ascending lexicographic order; duplicate
keys in the listings are preserved, not removed. -/
theorem C5_sorted (listings : List (Option (List String))) :
    (getLogFiles listings).Pairwise (fun a b => leStr a b = true) := by
  unfold getLogFiles
  exact pairwise_pySorted _

theorem capReached_none (p : Nat) : capReached none p = false := rfl

theorem downloadLoop_cons_cap (mf : Option Nat) (f : Option (List (Option LogRecord)))
    (fs : List (Option (List (Option LogRecord)))) (p : Nat)
    (h : capReached mf p = true) :
    downloadLoop mf (f :: fs) p = ([], p) := by
  simp only [downloadLoop, if_pos h]

theorem downloadLoop_cons_none (mf : Option Nat)
    (fs : List (Option (List (Option LogRecord)))) (p : Nat)
    (h : capReached mf p = false) :
    downloadLoop mf (none :: fs) p = downloadLoop mf fs p := by
  simp [downloadLoop, h]

theorem downloadLoop_cons_some (mf : Option Nat) (content : List (Option LogRecord))
    (fs : List (Option (List (Option LogRecord)))) (p : Nat)
    (h : capReached mf p = false) :
    downloadLoop mf (some content :: fs) p =
      (parseContentLoop [] content ++ (downloadLoop mf fs (p + 1)).1,
        (downloadLoop mf fs (p + 1)).2) := by
  simp [downloadLoop, h]

theorem downloadLoop_cap (m : Nat) (hm : 0 < m) :
    ∀ (files : List (Option (List (Option LogRecord)))) (processed : Nat),
      processed ≤ m →
      (downloadLoop (some m) files processed).2 ≤ m ∧
      ∃ k, downloadLoop none (files.take k) processed =
        downloadLoop (some m) files processed
  | [], processed, hp => by
    refine ⟨by simpa [downloadLoop] using hp, 0, by simp [downloadLoop]⟩
  | f :: fs, processed, hp => by
    cases hcap : capReached (some m) processed with
    | true =>
      rw [downloadLoop_cons_cap _ _ _ _ hcap]
      exact ⟨hp, 0, by simp [downloadLoop]⟩
    | false =>
      have hplt : processed < m := by
        by_contra hge
        have h1 : (m == 0) = false := by
          simp only [beq_eq_false_iff_ne, ne_eq]
          omega
        have h2 : capReached (some m) processed = true := by
          simp [capReached, h1, Nat.le_of_not_lt hge]
        rw [h2] at hcap
        exact Bool.noConfusion hcap
      match f with
      | none =>
        obtain ⟨h2, k, hk⟩ := downloadLoop_cap m hm fs processed (le_of_lt hplt)
        refine ⟨?_, k + 1, ?_⟩
        · rw [downloadLoop_cons_none _ _ _ hcap]
          exact h2
        · rw [List.take_succ_cons, downloadLoop_cons_none _ _ _ (capReached_none processed),
            downloadLoop_cons_none _ _ _ hcap]
          exact hk
      | some content =>
        obtain ⟨h2, k, hk⟩ := downloadLoop_cap m hm fs (processed + 1) hplt
        refine ⟨?_, k + 1, ?_⟩
        · rw [downloadLoop_cons_some _ _ _ _ hcap]
          exact h2
        · rw [List.take_succ_cons, downloadLoop_cons_some _ _ _ _ (capReached_none processed),
            downloadLoop_cons_some _ _ _ _ hcap, hk]

/-- Counterexample to claim C4 as stated: with a supplied cap of 0 the Python
truthiness test `if max_files and ...` never fires, so one file is processed
even though the cap says at most zero. -/
theorem C4_counterexample :
    ¬ ((downloadAndParseLogs [some [some rSqli]] (some 0)).2 ≤ 0) := by decide

/-- Claim C4 (amended): for every positive supplied cap `m`, at most `m` files
are processed, and the capped run returns exactly what an uncapped run over
some prefix of the file list returns (records come only from files processed
before the cap was reached).  A supplied cap of 0 is treated as no cap. -/
theorem C4_max_files_cap (files : List (Option (List (Option LogRecord))))
    (m : Nat) (hm : 0 < m) :
    (downloadAndParseLogs files (some m)).2 ≤ m ∧
    ∃ k, downloadAndParseLogs (files.take k) none =
      downloadAndParseLogs files (some m) := by
  unfold downloadAndParseLogs
  exact downloadLoop_cap m hm files 0 (Nat.zero_le m)

/-- Witness for C4 with cap 1 over a two-file list. -/
theorem C4_max_files_cap_witness :
    (downloadAndParseLogs [some [some rSqli], some [some rRate]] (some 1)).2 ≤ 1 ∧
    ∃ k, downloadAndParseLogs ([some [some rSqli], some [some rRate]].take k) none =
      downloadAndParseLogs [some [some rSqli], some [some rRate]] (some 1) :=
  C4_max_files_cap [some [some rSqli], some [some rRate]] 1 (by decide)

end WafAnalyzer
